import Mathlib

/-!
# Verification of the NCERT content pipeline (`src/scraper.py`)

A shallow embedding of the scraper's core: the filename sanitizer, the
deterministic id/path derivation, the download-and-extract pipeline with its
`try/except/finally` control flow over an explicit filesystem state, the main
per-entry loop, and the final manifest flush.  Side-effecting library calls
(HTTP fetch, zip decoding, selenium waits, JSON serialization, SHA-256) are
modelled by explicit environment data / opaque-but-deterministic functions;
the control flow and all string/path computations follow the Python source
line by line.
-/

/-- File contents, as a byte sequence. -/
abbrev Bytes := List Nat

/-- The filesystem visible to the scraper: a finite map from path to contents.
`set` models `open(p, 'wb')` + a completed write, `remove` models `os.remove`. -/
abbrev FS := List (String × Bytes)

namespace FS

/-- Look up the contents at a path (`None` = file does not exist). -/
def get (fs : FS) (p : String) : Option Bytes :=
  (fs.find? (fun e => e.1 == p)).map (·.2)

/-- Create or overwrite the file at `p` with contents `b`. -/
def set (fs : FS) (p : String) (b : Bytes) : FS :=
  (p, b) :: fs.filter (fun e => ¬ e.1 == p)

/-- Delete the file at `p` (`os.remove`; no-op when absent, matching the
guarded `if os.path.exists(zip_path): os.remove(zip_path)`). -/
def remove (fs : FS) (p : String) : FS :=
  fs.filter (fun e => ¬ e.1 == p)

theorem get_set_self (fs : FS) (p : String) (b : Bytes) :
    (fs.set p b).get p = some b := by
  simp [get, set]

theorem find?_filter_ne {α : Type} (l : List (String × α)) (p q : String) (h : q ≠ p) :
    (l.filter (fun e => ¬ e.1 == p)).find? (fun e => e.1 == q) =
      l.find? (fun e => e.1 == q) := by
  induction l with
  | nil => rfl
  | cons e rest ih =>
    by_cases he : e.1 = p
    · rw [List.filter_cons_of_neg (by simp [he]),
        List.find?_cons_of_neg rest (by simp [he]; exact fun hc => h hc.symm)]
      exact ih
    · rw [List.filter_cons_of_pos (by simp [he])]
      by_cases heq : e.1 = q
      · rw [List.find?_cons_of_pos _ (by simp [heq]),
          List.find?_cons_of_pos rest (by simp [heq])]
      · rw [List.find?_cons_of_neg _ (by simp [heq]),
          List.find?_cons_of_neg rest (by simp [heq])]
        exact ih

theorem get_set_ne (fs : FS) (p q : String) (b : Bytes) (h : q ≠ p) :
    (fs.set p b).get q = fs.get q := by
  simp only [get, set]
  rw [List.find?_cons_of_neg _ (by simp; exact fun hc => h hc.symm)]
  rw [find?_filter_ne fs p q h]

theorem get_remove_self (fs : FS) (p : String) :
    (fs.remove p).get p = none := by
  simp only [get, remove]
  rw [List.find?_eq_none.mpr]
  · rfl
  · intro e he
    have := (List.mem_filter.mp he).2
    simpa using this

theorem get_remove_ne (fs : FS) (p q : String) (h : q ≠ p) :
    (fs.remove p).get q = fs.get q := by
  simp only [get, remove]
  rw [find?_filter_ne fs p q h]

end FS

/-! ## `sanitize_filename` (src/scraper.py lines 141-143)

`re.sub(r'[^a-zA-Z0-9_.-]', '_', name).lower()`: every character outside the
class `[A-Za-z0-9_.-]` is replaced by `'_'`, then the result is lowercased.
The characters surviving `re.sub` are all ASCII, so Python's `str.lower`
coincides with ASCII lowercasing (`Char.toLower`) on them. -/

/-- Does `c` match the regex class `[a-zA-Z0-9_.-]` (i.e. is NOT substituted)? -/
def keepChar (c : Char) : Bool :=
  decide (('A' ≤ c ∧ c ≤ 'Z') ∨ ('a' ≤ c ∧ c ≤ 'z') ∨ ('0' ≤ c ∧ c ≤ '9') ∨
    c = '_' ∨ c = '.' ∨ c = '-')

/-- One character of `re.sub(r'[^a-zA-Z0-9_.-]', '_', name)`. -/
def sanitizeChar (c : Char) : Char := if keepChar c then c else '_'

/-- `sanitize_filename(name)`: `re.sub` over the characters, then `.lower()`. -/
def sanitize_filename (s : String) : String :=
  String.mk ((s.data.map sanitizeChar).map Char.toLower)

/-- The output character set claimed by the spec: `[a-z0-9_.-]`. -/
def allowedLower (c : Char) : Prop :=
  ('a' ≤ c ∧ c ≤ 'z') ∨ ('0' ≤ c ∧ c ≤ '9') ∨ c = '_' ∨ c = '.' ∨ c = '-'

instance (c : Char) : Decidable (allowedLower c) := by
  unfold allowedLower; infer_instance

theorem char_le_iff (a b : Char) : a ≤ b ↔ a.toNat ≤ b.toNat := by
  rw [Char.le_def, UInt32.le_def]
  rfl

theorem char_eq_iff (a b : Char) : a = b ↔ a.toNat = b.toNat := by
  constructor
  · rintro rfl; rfl
  · intro h
    exact Char.ext (UInt32.toNat.inj h)

theorem toLower_eq_of_not_upper (c : Char) (h : ¬ (65 ≤ c.toNat ∧ c.toNat ≤ 90)) :
    Char.toLower c = c := by
  unfold Char.toLower
  exact if_neg (by simpa [ge_iff_le] using h)

theorem toLower_toNat_of_upper (c : Char) (h1 : 65 ≤ c.toNat) (h2 : c.toNat ≤ 90) :
    (Char.toLower c).toNat = c.toNat + 32 := by
  unfold Char.toLower
  rw [if_pos ⟨h1, h2⟩]
  rw [Char.ofNat, dif_pos (Or.inl (by omega : c.toNat + 32 < 55296))]
  simp [Char.ofNatAux, Char.toNat, UInt32.toNat, BitVec.toNat_ofNatLt]

theorem keepChar_iff (c : Char) : keepChar c = true ↔
    (65 ≤ c.toNat ∧ c.toNat ≤ 90) ∨ (97 ≤ c.toNat ∧ c.toNat ≤ 122) ∨
    (48 ≤ c.toNat ∧ c.toNat ≤ 57) ∨ c.toNat = 95 ∨ c.toNat = 46 ∨ c.toNat = 45 := by
  unfold keepChar
  rw [decide_eq_true_iff]
  rw [char_le_iff, char_le_iff, char_le_iff, char_le_iff, char_le_iff, char_le_iff,
    char_eq_iff, char_eq_iff, char_eq_iff]
  rfl

theorem allowedLower_iff (c : Char) : allowedLower c ↔
    (97 ≤ c.toNat ∧ c.toNat ≤ 122) ∨ (48 ≤ c.toNat ∧ c.toNat ≤ 57) ∨
    c.toNat = 95 ∨ c.toNat = 46 ∨ c.toNat = 45 := by
  unfold allowedLower
  rw [char_le_iff, char_le_iff, char_le_iff, char_le_iff,
    char_eq_iff, char_eq_iff, char_eq_iff]
  rfl

theorem sanitize_char_allowed (c : Char) :
    allowedLower (Char.toLower (sanitizeChar c)) := by
  unfold sanitizeChar
  by_cases hk : keepChar c = true
  · rw [if_pos hk]
    rcases (keepChar_iff c).mp hk with h | h | h | h | h | h
    · rw [allowedLower_iff]
      have := toLower_toNat_of_upper c h.1 h.2
      omega
    all_goals rw [toLower_eq_of_not_upper c (by omega), allowedLower_iff]; omega
  · rw [if_neg hk]
    decide

theorem allowed_fixed (c : Char) (h : allowedLower c) :
    sanitizeChar c = c ∧ Char.toLower c = c := by
  have h' := (allowedLower_iff c).mp h
  refine ⟨?_, toLower_eq_of_not_upper c (by omega)⟩
  unfold sanitizeChar
  rw [if_pos ((keepChar_iff c).mpr (by omega))]

theorem sanitize_list_idem (l : List Char) :
    (((l.map sanitizeChar).map Char.toLower).map sanitizeChar).map Char.toLower =
      (l.map sanitizeChar).map Char.toLower := by
  induction l with
  | nil => rfl
  | cons c cs ih =>
    simp only [List.map_cons, List.cons.injEq]
    refine ⟨?_, ih⟩
    obtain ⟨h1, h2⟩ := allowed_fixed _ (sanitize_char_allowed c)
    rw [h1, h2]

theorem sanitize_filename_idem (s : String) :
    sanitize_filename (sanitize_filename s) = sanitize_filename s := by
  unfold sanitize_filename
  exact congrArg String.mk (sanitize_list_idem s.data)

theorem sanitize_filename_allowed (s : String) :
    ∀ c ∈ (sanitize_filename s).data, allowedLower c := by
  intro c hc
  unfold sanitize_filename at hc
  rcases List.mem_map.mp hc with ⟨d, hd, rfl⟩
  rcases List.mem_map.mp hd with ⟨e, _, rfl⟩
  exact sanitize_char_allowed e

/-! ## Deterministic names and paths (src/scraper.py lines 117-118, 147-156) -/

/-- Line 118: `download_url = f"https://ncert.nic.in/{relative_url}"`.
The prefix is prepended unconditionally, whatever shape `relative_url` has. -/
def download_url (relative_url : String) : String :=
  "https://ncert.nic.in/" ++ relative_url

/-- Line 147: `os.path.join('downloads', f'class_{class_num}')`. -/
def output_dir (class_num : String) : String := "downloads/class_" ++ class_num

/-- Line 153: `book_id = f"c{class_num}_{clean_subject}_{clean_title}"`. -/
def book_id (class_num subject title : String) : String :=
  "c" ++ class_num ++ "_" ++ sanitize_filename subject ++ "_" ++ sanitize_filename title

/-- Line 154: `pdf_filename = f"{clean_subject}_{clean_title}.pdf"`. -/
def pdf_filename (subject title : String) : String :=
  sanitize_filename subject ++ "_" ++ sanitize_filename title ++ ".pdf"

/-- Line 155: `pdf_path = os.path.join(output_dir, pdf_filename)`. -/
def pdf_path (class_num subject title : String) : String :=
  output_dir class_num ++ "/" ++ pdf_filename subject title

/-- Line 156: `zip_path = os.path.join(output_dir, 'temp.zip')`. -/
def zip_path (class_num : String) : String :=
  output_dir class_num ++ "/temp.zip"

/-! ## The zip archive as seen through the `zipfile` API -/

/-- One member of a zip archive as visible through `zipfile`: its name (as
listed by `namelist()`), its uncompressed size (`getinfo(name).file_size`) and
the bytes `ZipExtFile.read()` returns — `none` models a member whose stored
data is corrupt, which `read()` reports by raising `BadZipFile` (CRC error). -/
structure ZipEntry where
  name : String
  file_size : Nat
  content : Option Bytes
deriving DecidableEq, Repr

/-- `zip_ref.namelist()`. -/
def namelist (ar : List ZipEntry) : List String := ar.map (·.name)

/-- `zip_ref.getinfo(n)` / `zip_ref.open(n)`: resolve a member by name.
CPython's `ZipFile` builds its `NameToInfo` dict by assigning
`NameToInfo[x.filename] = x` for each member in archive order, so a name
shared by several members resolves to the LAST one; modelled by searching
the reversed member list. -/
def getinfo (ar : List ZipEntry) (n : String) : Option ZipEntry :=
  ar.reverse.find? (fun e => e.name == n)

/-- Line 168 filter condition: `f.lower().endswith('.pdf')`. -/
def isPdfName (f : String) : Bool :=
  (".pdf".data).isSuffixOf (f.data.map Char.toLower)

/-- Line 168: `pdf_files = [f for f in zip_ref.namelist() if f.lower().endswith('.pdf')]`. -/
def pdf_files (ar : List ZipEntry) : List String :=
  (namelist ar).filter isPdfName

/-- Python's `max(xs, key=key)`: the first element attaining the maximum (a
later element replaces the running best only when its key is strictly
greater).  `none` on the empty list (`max` would raise `ValueError`). -/
def pyMax (key : String → Nat) : List String → Option String
  | [] => none
  | x :: xs => some (xs.foldl (fun b y => if key y > key b then y else b) x)

/-- `zip_ref.getinfo(f).file_size` as used by the `max` key at line 173. -/
def file_size_of (ar : List ZipEntry) (n : String) : Nat :=
  ((getinfo ar n).map (·.file_size)).getD 0

/-- Line 173: `main_pdf_name = max(pdf_files, key=lambda f: zip_ref.getinfo(f).file_size)`. -/
def main_pdf_name (ar : List ZipEntry) : Option String :=
  pyMax (file_size_of ar) (pdf_files ar)

/-! ## `download_and_extract` (src/scraper.py lines 145-197) -/

/-- Models `hashlib.sha256(pdf_content).hexdigest()`: a deterministic digest
of the content bytes.  The compression function itself is irrelevant to every
claim (only that the digest is a pure function of the byte string), so it is
modelled by an injective textual encoding. -/
def sha256_hexdigest (b : Bytes) : String :=
  "sha256-" ++ String.intercalate "-" (b.map toString)

/-- The dict returned on success (lines 183-187). -/
structure Metadata where
  id : String
  pdf_path : String
  sha256 : String
deriving DecidableEq, Repr

/-- Outcome of `requests.get(url, stream=True)` plus streaming to disk. -/
inductive FetchResult where
  /-- success status, full body streamed -/
  | ok (bytes : Bytes)
  /-- `raise_for_status()` raises `requests.exceptions.RequestException`;
  the temp file was never opened -/
  | httpError
  /-- the connection drops during `iter_content`: `got` bytes were already
  written to the temp file before the `RequestException` fired -/
  | streamFail (got : Bytes)
deriving DecidableEq, Repr

/-- Which exit of `download_and_extract` was taken.  The Python function
returns a metadata dict on success and `None` on every failure path; the
failure constructors record which `except`/early-`return` branch produced
that `None`. -/
inductive DlResult where
  | ok (m : Metadata)
  /-- `except requests.exceptions.RequestException` (line 189) -/
  | fetchError
  /-- `except zipfile.BadZipFile` (line 192): corrupt container, or a CRC
  failure raised while reading the selected member -/
  | badZip
  /-- early `return None` at `"No PDF found"` (lines 169-171) -/
  | noPdf
deriving DecidableEq, Repr

/-- `download_and_extract(url, class_num, subject, title)` over an explicit
filesystem.  `decodeZip` models `zipfile.ZipFile` parsing the bytes on disk
at `zip_path` (`none` = the container is corrupt, `BadZipFile`); `fetch`
models the HTTP transfer of the url.  The `finally` clause (lines 195-197)
removes `zip_path` on every exit path.  Note that the destination file is
opened with `open(pdf_path, 'wb')` — truncating it — before `source.read()`
runs (lines 175-177). -/
def download_and_extract (decodeZip : Bytes → Option (List ZipEntry))
    (fetch : FetchResult) (class_num subject title : String) (fs : FS) :
    DlResult × FS :=
  let ppath := pdf_path class_num subject title
  let zpath := zip_path class_num
  match fetch with
  | .httpError => (.fetchError, fs.remove zpath)
  | .streamFail got => (.fetchError, (fs.set zpath got).remove zpath)
  | .ok bytes =>
    let fs1 := fs.set zpath bytes
    match decodeZip ((fs1.get zpath).getD []) with
    | none => (.badZip, fs1.remove zpath)
    | some ar =>
      match main_pdf_name ar with
      | none => (.noPdf, fs1.remove zpath)
      | some nm =>
        match getinfo ar nm with
        | none => (.badZip, fs1.remove zpath)
        | some entry =>
          let fs2 := fs1.set ppath []
          match entry.content with
          | none => (.badZip, fs2.remove zpath)
          | some pdf_content =>
            let fs3 := fs2.set ppath pdf_content
            (.ok ⟨book_id class_num subject title, ppath,
              sha256_hexdigest pdf_content⟩, fs3.remove zpath)

/-! ## Characterizing the `max(..., key=...)` selection (claim C2) -/

/-- The fold Python's `max(xs, key=k)` performs once the first element has
been taken as the running best. -/
def foldStep {α : Type} (k : α → Nat) (b : α) (l : List α) : α :=
  l.foldl (fun b y => if k y > k b then y else b) b

/-- Largest key value occurring in `l` (0 when empty). -/
def maxKey {α : Type} (k : α → Nat) (l : List α) : Nat :=
  (l.map k).foldl Nat.max 0

/-- The member of the archive the pipeline extracts: the member `open`ed at
line 175, i.e. the one `main_pdf_name` names. -/
def selectedEntry (ar : List ZipEntry) : Option ZipEntry :=
  (main_pdf_name ar).bind (getinfo ar)

/-- The archive members whose name ends in the recognized content extension. -/
def matchingEntries (ar : List ZipEntry) : List ZipEntry :=
  ar.filter (fun e => isPdfName e.name)

/-- Stated from the spec's words, for comparison with the code's selection:
"among all entries whose name ends in the recognized content extension
(case-insensitive), pick the one with the largest uncompressed size
(tie-break: first encountered in archive order)". -/
def specPrimary (ar : List ZipEntry) : Option ZipEntry :=
  (matchingEntries ar).find?
    (fun e => e.file_size == maxKey ZipEntry.file_size (matchingEntries ar))

theorem foldl_max_init (l : List Nat) (i : Nat) :
    l.foldl Nat.max i = Nat.max i (l.foldl Nat.max 0) := by
  induction l generalizing i with
  | nil => simp
  | cons a t ih =>
    simp only [List.foldl_cons]
    rw [ih (Nat.max i a), ih (Nat.max 0 a)]
    simp [Nat.max_assoc, Nat.zero_max]

theorem maxKey_cons {α : Type} (k : α → Nat) (a : α) (l : List α) :
    maxKey k (a :: l) = Nat.max (k a) (maxKey k l) := by
  simp only [maxKey, List.map_cons, List.foldl_cons]
  rw [foldl_max_init _ (Nat.max 0 (k a))]
  simp [Nat.zero_max]

theorem le_maxKey {α : Type} (k : α → Nat) (l : List α) (x : α) (hx : x ∈ l) :
    k x ≤ maxKey k l := by
  induction l with
  | nil => cases hx
  | cons a t ih =>
    rw [maxKey_cons]
    rcases List.mem_cons.mp hx with rfl | hx'
    · exact Nat.le_max_left _ _
    · exact le_trans (ih hx') (Nat.le_max_right _ _)

theorem maxKey_le {α : Type} (k : α → Nat) (l : List α) (n : Nat)
    (h : ∀ x ∈ l, k x ≤ n) : maxKey k l ≤ n := by
  induction l with
  | nil => simp [maxKey]
  | cons a t ih =>
    rw [maxKey_cons]
    exact Nat.max_le.mpr ⟨h a (List.mem_cons_self a t),
      ih (fun x hx => h x (List.mem_cons_of_mem a hx))⟩

/-- The Python `max` fold selects exactly the first element of `b :: l`
attaining the maximal key. -/
theorem find_max_eq_foldStep {α : Type} (k : α → Nat) (l : List α) (b : α) :
    (b :: l).find? (fun x => k x == maxKey k (b :: l)) = some (foldStep k b l) := by
  induction l generalizing b with
  | nil =>
    rw [List.find?_cons_of_pos _ (by simp [maxKey_cons, maxKey])]
    rfl
  | cons y ys ih =>
    by_cases hy : k y > k b
    · have hble := le_maxKey k (y :: ys) y (List.mem_cons_self y ys)
      have hM : maxKey k (b :: y :: ys) = maxKey k (y :: ys) := by
        rw [maxKey_cons k b]
        exact Nat.max_eq_right (by omega)
      have hb : k b < maxKey k (y :: ys) := Nat.lt_of_lt_of_le hy hble
      rw [hM, List.find?_cons_of_neg _ (by simp only [beq_iff_eq]; omega)]
      have hstep : foldStep k b (y :: ys) = foldStep k y ys := by
        simp [foldStep, if_pos hy]
      rw [hstep]
      exact ih y
    · have hM : maxKey k (b :: y :: ys) = maxKey k (b :: ys) := by
        rw [maxKey_cons k b, maxKey_cons k y, maxKey_cons k b]
        simp only [Nat.max_def]
        split_ifs <;> omega
      have hstep : foldStep k b (y :: ys) = foldStep k b ys := by
        simp [foldStep, if_neg hy]
      rw [hstep, hM]
      by_cases hb : k b = maxKey k (b :: ys)
      · rw [List.find?_cons_of_pos _ (by simp [hb])]
        have h2 := ih b
        rw [List.find?_cons_of_pos _ (by simp [hb])] at h2
        exact h2
      · have hble : k b ≤ maxKey k (b :: ys) := le_maxKey k _ b (List.mem_cons_self _ _)
        have hky : k y ≤ k b := by omega
        rw [List.find?_cons_of_neg _ (by simp only [beq_iff_eq]; omega),
          List.find?_cons_of_neg _ (by simp only [beq_iff_eq]; omega)]
        have h2 := ih b
        rw [List.find?_cons_of_neg _ (by simp only [beq_iff_eq]; omega)] at h2
        exact h2

theorem foldStep_congr {α : Type} (k1 k2 : α → Nat) (b : α) (l : List α)
    (h : ∀ x ∈ b :: l, k1 x = k2 x) : foldStep k1 b l = foldStep k2 b l := by
  induction l generalizing b with
  | nil => rfl
  | cons y ys ih =>
    have hb := h b (List.mem_cons_self _ _)
    have hy := h y (List.mem_cons_of_mem _ (List.mem_cons_self _ _))
    have e1 : foldStep k1 b (y :: ys) = foldStep k1 (if k1 y > k1 b then y else b) ys := rfl
    have e2 : foldStep k2 b (y :: ys) = foldStep k2 (if k2 y > k2 b then y else b) ys := rfl
    rw [e1, e2]
    have hcond : (if k1 y > k1 b then y else b) = (if k2 y > k2 b then y else b) := by
      simp only [hb, hy]
    rw [hcond]
    apply ih
    intro x hx
    rcases List.mem_cons.mp hx with rfl | hx'
    · split_ifs
      · exact hy
      · exact hb
    · exact h x (List.mem_cons_of_mem _ (List.mem_cons_of_mem _ hx'))

theorem foldStep_map {α β : Type} (k : β → Nat) (f : α → β) (b : α) (l : List α) :
    foldStep k (f b) (l.map f) = f (foldStep (fun a => k (f a)) b l) := by
  induction l generalizing b with
  | nil => rfl
  | cons y ys ih =>
    by_cases hgt : k (f y) > k (f b)
    · have e1 : foldStep k (f b) ((y :: ys).map f) = foldStep k (f y) (ys.map f) := by
        simp [foldStep, if_pos hgt]
      have e2 : foldStep (fun a => k (f a)) b (y :: ys) =
          foldStep (fun a => k (f a)) y ys := by
        simp [foldStep, if_pos hgt]
      rw [e1, e2, ih y]
    · have e1 : foldStep k (f b) ((y :: ys).map f) = foldStep k (f b) (ys.map f) := by
        simp [foldStep, if_neg hgt]
      have e2 : foldStep (fun a => k (f a)) b (y :: ys) =
          foldStep (fun a => k (f a)) b ys := by
        simp [foldStep, if_neg hgt]
      rw [e1, e2, ih b]

theorem foldStep_mem {α : Type} (k : α → Nat) (b : α) (l : List α) :
    foldStep k b l ∈ b :: l := by
  induction l generalizing b with
  | nil => simp [foldStep]
  | cons y ys ih =>
    have e1 : foldStep k b (y :: ys) = foldStep k (if k y > k b then y else b) ys := rfl
    rw [e1]
    rcases List.mem_cons.mp (ih (if k y > k b then y else b)) with h | h
    · rw [h]
      split_ifs <;> simp
    · exact List.mem_cons_of_mem _ (List.mem_cons_of_mem _ h)

theorem find?_name_of_mem (ar : List ZipEntry) (hn : (namelist ar).Nodup)
    (e : ZipEntry) (he : e ∈ ar) :
    ar.find? (fun x => x.name == e.name) = some e := by
  induction ar with
  | nil => cases he
  | cons a rest ih =>
    rw [namelist, List.map_cons, List.nodup_cons] at hn
    rcases List.mem_cons.mp he with rfl | he'
    · exact List.find?_cons_of_pos _ (by simp)
    · have hne : a.name ≠ e.name := by
        intro hc
        exact hn.1 (hc ▸ List.mem_map.mpr ⟨e, he', rfl⟩)
      rw [List.find?_cons_of_neg _ (by simp [hne])]
      exact ih hn.2 he'

theorem getinfo_of_mem (ar : List ZipEntry) (hn : (namelist ar).Nodup)
    (e : ZipEntry) (he : e ∈ ar) : getinfo ar e.name = some e := by
  rw [getinfo]
  apply find?_name_of_mem
  · rw [namelist]
    rw [show ar.reverse.map (fun x => x.name) = (ar.map (fun x => x.name)).reverse
      from List.map_reverse _ _]
    exact List.nodup_reverse.mpr hn
  · exact List.mem_reverse.mpr he

theorem file_size_of_mem (ar : List ZipEntry) (hn : (namelist ar).Nodup)
    (e : ZipEntry) (he : e ∈ ar) : file_size_of ar e.name = e.file_size := by
  rw [file_size_of, getinfo_of_mem ar hn e he]
  rfl

theorem selectedEntry_eq_specPrimary (ar : List ZipEntry)
    (hn : (namelist ar).Nodup) : selectedEntry ar = specPrimary ar := by
  unfold selectedEntry specPrimary main_pdf_name pdf_files
  have hfm : (namelist ar).filter isPdfName =
      (matchingEntries ar).map (fun x => x.name) := by
    rw [namelist, matchingEntries]
    exact List.filter_map (fun x => x.name) ar
  rw [hfm]
  rcases hm : matchingEntries ar with _ | ⟨e, es⟩
  · rfl
  · have hsub : ∀ x ∈ e :: es, x ∈ ar := by
      intro x hx
      rw [matchingEntries] at hm
      exact List.mem_of_mem_filter (hm ▸ hx)
    rw [List.map_cons]
    have hsel : pyMax (file_size_of ar) (e.name :: es.map (fun x => x.name)) =
        some ((foldStep ZipEntry.file_size e es).name) := by
      show some (foldStep (file_size_of ar) e.name (es.map (fun x => x.name))) = _
      have h1 := foldStep_map (file_size_of ar) (fun x => x.name) e es
      simp only [] at h1
      rw [h1]
      have h2 : foldStep (fun a => file_size_of ar a.name) e es =
          foldStep ZipEntry.file_size e es :=
        foldStep_congr _ _ e es (fun x hx => file_size_of_mem ar hn x (hsub x hx))
      rw [h2]
    rw [hsel, Option.some_bind, find_max_eq_foldStep ZipEntry.file_size es e]
    exact getinfo_of_mem ar hn _ (hsub _ (foldStep_mem ZipEntry.file_size e es))

/-! ## Path disjointness -/

/-- Line 202: the catalog-entry manifest file. -/
def books_manifest_path : String := "books_to_track.json"

/-- Line 205: the hash-index manifest file. -/
def hashes_manifest_path : String := "hashes.json"

theorem pdf_filename_data (s t : String) : (pdf_filename s t).data =
    (sanitize_filename s ++ "_" ++ sanitize_filename t).data ++ ".pdf".data := by
  rw [pdf_filename, String.data_append]

theorem pdf_path_getLast (c s t : String) :
    (pdf_path c s t).data.getLast? = some 'f' := by
  rw [pdf_path, String.data_append, pdf_filename_data]
  rw [List.getLast?_append_of_ne_nil _ (by
    intro h
    rcases List.append_eq_nil.mp h with ⟨-, h2⟩
    exact absurd h2 (by decide))]
  rw [List.getLast?_append_of_ne_nil _ (by decide)]
  decide

theorem zip_path_getLast (c : String) :
    (zip_path c).data.getLast? = some 'p' := by
  rw [zip_path, String.data_append,
    List.getLast?_append_of_ne_nil _ (by decide)]
  decide

theorem pdf_path_ne_zip_path (c s t : String) : pdf_path c s t ≠ zip_path c := by
  intro h
  have h2 : some 'f' = some 'p' := by
    rw [← pdf_path_getLast c s t, h, zip_path_getLast]
  exact absurd h2 (by decide)

theorem pdf_path_head (c s t : String) : (pdf_path c s t).data.head? = some 'd' := rfl

theorem zip_path_head (c : String) : (zip_path c).data.head? = some 'd' := rfl

theorem books_manifest_ne_pdf_path (c s t : String) :
    books_manifest_path ≠ pdf_path c s t := by
  intro h
  have h2 : some 'b' = some 'd' := by
    rw [show some 'b' = books_manifest_path.data.head? from rfl, h, pdf_path_head]
  exact absurd h2 (by decide)

theorem books_manifest_ne_zip_path (c : String) :
    books_manifest_path ≠ zip_path c := by
  intro h
  have h2 : some 'b' = some 'd' := by
    rw [show some 'b' = books_manifest_path.data.head? from rfl, h, zip_path_head]
  exact absurd h2 (by decide)

theorem hashes_manifest_ne_pdf_path (c s t : String) :
    hashes_manifest_path ≠ pdf_path c s t := by
  intro h
  have h2 : some 'h' = some 'd' := by
    rw [show some 'h' = hashes_manifest_path.data.head? from rfl, h, pdf_path_head]
  exact absurd h2 (by decide)

theorem hashes_manifest_ne_zip_path (c : String) :
    hashes_manifest_path ≠ zip_path c := by
  intro h
  have h2 : some 'h' = some 'd' := by
    rw [show some 'h' = hashes_manifest_path.data.head? from rfl, h, zip_path_head]
  exact absurd h2 (by decide)

/-! ## Behaviour of `download_and_extract` -/

/-- The exit taken by `download_and_extract` (independent of the incoming
filesystem, which only threads through). -/
def dlOutcome (decodeZip : Bytes → Option (List ZipEntry)) (fetch : FetchResult)
    (class_num subject title : String) : DlResult :=
  (download_and_extract decodeZip fetch class_num subject title []).1

theorem download_and_extract_fst (dz : Bytes → Option (List ZipEntry))
    (fetch : FetchResult) (c s t : String) (fs : FS) :
    (download_and_extract dz fetch c s t fs).1 = dlOutcome dz fetch c s t := by
  cases fetch with
  | httpError => rfl
  | streamFail got => rfl
  | ok bytes =>
    show (download_and_extract dz (.ok bytes) c s t fs).1 =
      (download_and_extract dz (.ok bytes) c s t []).1
    unfold download_and_extract
    simp only [FS.get_set_self, Option.getD_some]
    rcases dz bytes with _ | ar
    · rfl
    · simp only []
      rcases main_pdf_name ar with _ | nm
      · rfl
      · simp only []
        rcases getinfo ar nm with _ | entry
        · rfl
        · simp only []
          rcases entry.content with _ | pc
          · rfl
          · rfl

theorem download_and_extract_zip_removed (dz : Bytes → Option (List ZipEntry))
    (fetch : FetchResult) (c s t : String) (fs : FS) :
    ((download_and_extract dz fetch c s t fs).2).get (zip_path c) = none := by
  cases fetch with
  | httpError => exact FS.get_remove_self _ _
  | streamFail got => exact FS.get_remove_self _ _
  | ok bytes =>
    unfold download_and_extract
    simp only [FS.get_set_self, Option.getD_some]
    rcases dz bytes with _ | ar
    · exact FS.get_remove_self _ _
    · simp only []
      rcases main_pdf_name ar with _ | nm
      · exact FS.get_remove_self _ _
      · simp only []
        rcases getinfo ar nm with _ | entry
        · exact FS.get_remove_self _ _
        · simp only []
          rcases entry.content with _ | pc
          · exact FS.get_remove_self _ _
          · exact FS.get_remove_self _ _

theorem download_and_extract_preserves (dz : Bytes → Option (List ZipEntry))
    (fetch : FetchResult) (c s t : String) (fs : FS) (q : String)
    (h1 : q ≠ pdf_path c s t) (h2 : q ≠ zip_path c) :
    ((download_and_extract dz fetch c s t fs).2).get q = fs.get q := by
  cases fetch with
  | httpError => exact FS.get_remove_ne _ _ _ h2
  | streamFail got =>
    show ((fs.set (zip_path c) got).remove (zip_path c)).get q = fs.get q
    rw [FS.get_remove_ne _ _ _ h2, FS.get_set_ne _ _ _ _ h2]
  | ok bytes =>
    unfold download_and_extract
    simp only [FS.get_set_self, Option.getD_some]
    rcases dz bytes with _ | ar
    · show ((fs.set (zip_path c) bytes).remove (zip_path c)).get q = fs.get q
      rw [FS.get_remove_ne _ _ _ h2, FS.get_set_ne _ _ _ _ h2]
    · simp only []
      rcases main_pdf_name ar with _ | nm
      · show ((fs.set (zip_path c) bytes).remove (zip_path c)).get q = fs.get q
        rw [FS.get_remove_ne _ _ _ h2, FS.get_set_ne _ _ _ _ h2]
      · simp only []
        rcases getinfo ar nm with _ | entry
        · show ((fs.set (zip_path c) bytes).remove (zip_path c)).get q = fs.get q
          rw [FS.get_remove_ne _ _ _ h2, FS.get_set_ne _ _ _ _ h2]
        · simp only []
          rcases entry.content with _ | pc
          · show (((fs.set (zip_path c) bytes).set (pdf_path c s t) []).remove
              (zip_path c)).get q = fs.get q
            rw [FS.get_remove_ne _ _ _ h2, FS.get_set_ne _ _ _ _ h1,
              FS.get_set_ne _ _ _ _ h2]
          · show ((((fs.set (zip_path c) bytes).set (pdf_path c s t) []).set
              (pdf_path c s t) pc).remove (zip_path c)).get q = fs.get q
            rw [FS.get_remove_ne _ _ _ h2, FS.get_set_ne _ _ _ _ h1,
              FS.get_set_ne _ _ _ _ h1, FS.get_set_ne _ _ _ _ h2]

theorem download_and_extract_httpError (dz : Bytes → Option (List ZipEntry))
    (c s t : String) (fs : FS) :
    download_and_extract dz .httpError c s t fs =
      (.fetchError, fs.remove (zip_path c)) := rfl

theorem download_and_extract_streamFail (dz : Bytes → Option (List ZipEntry))
    (got : Bytes) (c s t : String) (fs : FS) :
    download_and_extract dz (.streamFail got) c s t fs =
      (.fetchError, (fs.set (zip_path c) got).remove (zip_path c)) := rfl

theorem download_and_extract_badContainer (dz : Bytes → Option (List ZipEntry))
    (bytes : Bytes) (c s t : String) (fs : FS) (hz : dz bytes = none) :
    download_and_extract dz (.ok bytes) c s t fs =
      (.badZip, (fs.set (zip_path c) bytes).remove (zip_path c)) := by
  unfold download_and_extract
  simp only [FS.get_set_self, Option.getD_some, hz]

theorem download_and_extract_noPdf (dz : Bytes → Option (List ZipEntry))
    (bytes : Bytes) (ar : List ZipEntry) (c s t : String) (fs : FS)
    (hz : dz bytes = some ar) (hp : pdf_files ar = []) :
    download_and_extract dz (.ok bytes) c s t fs =
      (.noPdf, (fs.set (zip_path c) bytes).remove (zip_path c)) := by
  unfold download_and_extract
  have hm : main_pdf_name ar = none := by
    rw [main_pdf_name, hp]
    rfl
  simp only [FS.get_set_self, Option.getD_some, hz, hm]

theorem download_and_extract_readFail (dz : Bytes → Option (List ZipEntry))
    (bytes : Bytes) (ar : List ZipEntry) (nm : String) (entry : ZipEntry)
    (c s t : String) (fs : FS) (hz : dz bytes = some ar)
    (hm : main_pdf_name ar = some nm) (hg : getinfo ar nm = some entry)
    (hc : entry.content = none) :
    download_and_extract dz (.ok bytes) c s t fs =
      (.badZip, ((fs.set (zip_path c) bytes).set (pdf_path c s t) []).remove
        (zip_path c)) := by
  unfold download_and_extract
  simp only [FS.get_set_self, Option.getD_some, hz, hm, hg, hc]

theorem download_and_extract_success (dz : Bytes → Option (List ZipEntry))
    (bytes : Bytes) (ar : List ZipEntry) (nm : String) (entry : ZipEntry)
    (pc : Bytes) (c s t : String) (fs : FS) (hz : dz bytes = some ar)
    (hm : main_pdf_name ar = some nm) (hg : getinfo ar nm = some entry)
    (hc : entry.content = some pc) :
    download_and_extract dz (.ok bytes) c s t fs =
      (.ok ⟨book_id c s t, pdf_path c s t, sha256_hexdigest pc⟩,
       (((fs.set (zip_path c) bytes).set (pdf_path c s t) []).set
         (pdf_path c s t) pc).remove (zip_path c)) := by
  unfold download_and_extract
  simp only [FS.get_set_self, Option.getD_some, hz, hm, hg, hc]

/-! ## The main loop and manifests (src/scraper.py lines 38-139, 199-208) -/

/-- One record of `books_to_track` (lines 123-130). -/
structure BookEntry where
  id : String
  classNum : Nat
  subject : String
  title : String
  pdf_path : String
  download_url : String
deriving DecidableEq, Repr

/-- Per-entry navigation outcome in the processing loop (lines 91-115):
`navOk` is whether the re-selection of class/subject/book and the waits up to
the detail view all succeed without raising; `href` is what
`soup.find('a', string=re.compile('Download complete book'))` yields. -/
structure EntryNav where
  navOk : Bool
  href : Option String

/-- `hashes_data[id] = sha` (line 132): Python dict assignment — an existing
key keeps its position and takes the new value, a new key is appended. -/
def dictSet : List (String × String) → String → String → List (String × String)
  | [], k, v => [(k, v)]
  | (k', v') :: rest, k, v =>
    if k' = k then (k, v) :: rest else (k', v') :: dictSet rest k v

/-- Dict lookup. -/
def dictGet (m : List (String × String)) (k : String) : Option String :=
  (m.find? (fun e => e.1 == k)).map (·.2)

/-- The run's environment: what the external world (site, network) does at
each interaction point of `main`. -/
structure RunEnv where
  /-- Step-1 discovery (lines 55-80): `none` models the initial wait for the
  class's subject list timing out (the run-fatal discovery failure);
  otherwise the (subject, title) pairs observed, in interface order. -/
  discovery : Option (List (String × String))
  /-- per-entry navigation outcome (lines 91-115) -/
  nav : String → String → EntryNav
  /-- per-entry HTTP transfer outcome (lines 159-164) -/
  fetch : String → String → FetchResult
  /-- does the `json.dump` to `books_to_track.json` complete? (lines 202-203) -/
  persistBooksOk : Bool
  /-- does the `json.dump` to `hashes.json` complete? (lines 205-206) -/
  persistHashesOk : Bool

/-- How a run ends. -/
inductive RunResult where
  /-- both manifests flushed (lines 134-138) -/
  | completed (books : List BookEntry) (hashes : List (String × String))
  /-- step-1 discovery raised: no entries discovered, manifest never written -/
  | discoveryFatal
  /-- an uncaught exception while re-navigating for this entry (e.g. a
  `WebDriverWait` timeout at lines 94-106): aborts the whole run -/
  | entryFatal (subject title : String)
  /-- `write_manifests` raised -/
  | persistFatal
deriving DecidableEq, Repr

/-- Lines 86-132: the per-entry loop, threading `books_to_track`,
`hashes_data` and the filesystem.  `int(class_number)` is modelled by
`toNat?.getD 0` (argument parsing guarantees a decimal numeral).  An entry
whose navigation raises aborts the loop (`Except.error`); an entry whose
anchor is missing is skipped (`continue`, line 115); a falsy metadata from
`download_and_extract` skips the entry (lines 122-132). -/
def runEntries (dz : Bytes → Option (List ZipEntry)) (class_number : String)
    (env : RunEnv) :
    List (String × String) → List BookEntry × List (String × String) × FS →
    Except ((String × String) × FS) (List BookEntry × List (String × String) × FS)
  | [], st => .ok st
  | (s, t) :: rest, (books, hashes, fs) =>
    if (env.nav s t).navOk = false then .error ((s, t), fs)
    else
      match (env.nav s t).href with
      | none => runEntries dz class_number env rest (books, hashes, fs)
      | some href =>
        match download_and_extract dz (env.fetch s t) class_number s t fs with
        | (.ok m, fs') =>
          runEntries dz class_number env rest
            (books ++ [⟨m.id, class_number.toNat?.getD 0, s, t, m.pdf_path,
              download_url href⟩],
             dictSet hashes m.id m.sha256, fs')
        | (_, fs') => runEntries dz class_number env rest (books, hashes, fs')

/-- Models `json.dump(books_to_track, f, indent=2)`: a deterministic
serialization of the record list (the JSON text itself is opaque to every
claim; only that it is a function of the accumulated list is used). -/
def encodeBooks (books : List BookEntry) : Bytes :=
  (reprStr books).data.map Char.toNat

/-- Models `json.dump(hashes_data, f, indent=2)`. -/
def encodeHashes (hashes : List (String × String)) : Bytes :=
  (reprStr hashes).data.map Char.toNat

/-- `write_manifests` (lines 199-208): the two JSON files are written in
order; a raising write (modelled by the `persist*Ok` flags) stops the
function there.  Returns whether both writes completed. -/
def write_manifests (persistBooksOk persistHashesOk : Bool)
    (books : List BookEntry) (hashes : List (String × String)) (fs : FS) :
    Bool × FS :=
  if persistBooksOk = false then (false, fs)
  else
    let fs1 := fs.set books_manifest_path (encodeBooks books)
    if persistHashesOk = false then (false, fs1)
    else (true, fs1.set hashes_manifest_path (encodeHashes hashes))

/-- `main` after argument parsing (lines 38-139): discovery, the per-entry
loop, then the single manifest flush.  An uncaught exception skips the flush
(the `try` block has only a `finally: driver.quit()`, which has no
filesystem effect, and the exception propagates). -/
def runMain (dz : Bytes → Option (List ZipEntry)) (class_number : String)
    (env : RunEnv) (fs0 : FS) : RunResult × FS :=
  match env.discovery with
  | none => (.discoveryFatal, fs0)
  | some entries =>
    match runEntries dz class_number env entries ([], [], fs0) with
    | .error ((s, t), fs) => (.entryFatal s t, fs)
    | .ok (books, hashes, fs) =>
      match write_manifests env.persistBooksOk env.persistHashesOk books
          hashes fs with
      | (false, fs') => (.persistFatal, fs')
      | (true, fs') => (.completed books hashes, fs')

/-- The filesystem component of a loop outcome. -/
def exceptFS :
    Except ((String × String) × FS) (List BookEntry × List (String × String) × FS) → FS
  | .error (_, fs) => fs
  | .ok (_, _, fs) => fs

theorem runEntries_preserves (dz : Bytes → Option (List ZipEntry))
    (cn : String) (env : RunEnv) (q : String)
    (hq1 : ∀ s t, q ≠ pdf_path cn s t) (hq2 : q ≠ zip_path cn) :
    ∀ (entries : List (String × String)) (books : List BookEntry)
      (hashes : List (String × String)) (fs : FS),
      (exceptFS (runEntries dz cn env entries (books, hashes, fs))).get q =
        fs.get q := by
  intro entries
  induction entries with
  | nil => intro books hashes fs; rfl
  | cons st rest ih =>
    intro books hashes fs
    obtain ⟨s, t⟩ := st
    by_cases hnav : (env.nav s t).navOk = false
    · simp only [runEntries, if_pos hnav]
      rfl
    · simp only [runEntries, if_neg hnav]
      rcases hh : (env.nav s t).href with _ | href
      · exact ih books hashes fs
      · rcases hdl : download_and_extract dz (env.fetch s t) cn s t fs with ⟨res, fs'⟩
        have hfs' : fs'.get q = fs.get q := by
          have := download_and_extract_preserves dz (env.fetch s t) cn s t fs q
            (hq1 s t) hq2
          rw [hdl] at this
          exact this
        rcases res with m | _ | _ | _
        · simp only [hdl]
          rw [ih _ _ fs']
          exact hfs'
        · simp only [hdl]
          rw [ih _ _ fs']
          exact hfs'
        · simp only [hdl]
          rw [ih _ _ fs']
          exact hfs'
        · simp only [hdl]
          rw [ih _ _ fs']
          exact hfs'

theorem runEntries_no_abort (dz : Bytes → Option (List ZipEntry))
    (cn : String) (env : RunEnv) :
    ∀ (entries : List (String × String)) (books : List BookEntry)
      (hashes : List (String × String)) (fs : FS),
      (∀ st ∈ entries, (env.nav st.1 st.2).navOk = true) →
      ∃ out, runEntries dz cn env entries (books, hashes, fs) = .ok out := by
  intro entries
  induction entries with
  | nil => exact fun books hashes fs _ => ⟨(books, hashes, fs), rfl⟩
  | cons st rest ih =>
    intro books hashes fs hnav
    obtain ⟨s, t⟩ := st
    have hok : ¬ ((env.nav s t).navOk = false) := by
      rw [hnav (s, t) (List.mem_cons_self _ _)]
      simp
    simp only [runEntries, if_neg hok]
    have hrest : ∀ st ∈ rest, (env.nav st.1 st.2).navOk = true :=
      fun st hst => hnav st (List.mem_cons_of_mem _ hst)
    rcases hh : (env.nav s t).href with _ | href
    · exact ih books hashes fs hrest
    · rcases hdl : download_and_extract dz (env.fetch s t) cn s t fs with ⟨res, fs'⟩
      rcases res with m | _ | _ | _
      · exact ih _ _ fs' hrest
      · exact ih _ _ fs' hrest
      · exact ih _ _ fs' hrest
      · exact ih _ _ fs' hrest

theorem bool_not_false {b : Bool} (h : ¬ (b = false)) : b = true := by
  cases b
  · exact absurd rfl h
  · rfl

theorem runEntries_books_sound (dz : Bytes → Option (List ZipEntry))
    (cn : String) (env : RunEnv) :
    ∀ (entries : List (String × String)) (books : List BookEntry)
      (hashes : List (String × String)) (fs : FS)
      (out : List BookEntry × List (String × String) × FS),
      runEntries dz cn env entries (books, hashes, fs) = .ok out →
      ∀ b ∈ out.1, b ∈ books ∨ ∃ s t href m, (s, t) ∈ entries ∧
        (env.nav s t).navOk = true ∧ (env.nav s t).href = some href ∧
        dlOutcome dz (env.fetch s t) cn s t = .ok m ∧
        b = ⟨m.id, cn.toNat?.getD 0, s, t, m.pdf_path, download_url href⟩ := by
  intro entries
  induction entries with
  | nil =>
    intro books hashes fs out hrun b hb
    left
    simp only [runEntries] at hrun
    cases hrun
    exact hb
  | cons st rest ih =>
    intro books hashes fs out hrun b hb
    obtain ⟨s, t⟩ := st
    by_cases hnav : (env.nav s t).navOk = false
    · simp only [runEntries, if_pos hnav] at hrun
      cases hrun
    · have hnavT := bool_not_false hnav
      simp only [runEntries, if_neg hnav] at hrun
      rcases hh : (env.nav s t).href with _ | href <;> rw [hh] at hrun
      · rcases ih books hashes fs out hrun b hb with h | ⟨s', t', href', m', hmem, h2, h3, h4, h5⟩
        · exact Or.inl h
        · exact Or.inr ⟨s', t', href', m', List.mem_cons_of_mem _ hmem, h2, h3, h4, h5⟩
      · rcases hdl : download_and_extract dz (env.fetch s t) cn s t fs with ⟨res, fs'⟩
        rw [hdl] at hrun
        have houtc : (download_and_extract dz (env.fetch s t) cn s t fs).1 =
            dlOutcome dz (env.fetch s t) cn s t :=
          download_and_extract_fst dz (env.fetch s t) cn s t fs
        rw [hdl] at houtc
        rcases res with m | _ | _ | _
        · rcases ih _ _ fs' out hrun b hb with h | ⟨s', t', href', m', hmem, h2, h3, h4, h5⟩
          · rcases List.mem_append.mp h with h' | h'
            · exact Or.inl h'
            · have hbeq : b = ⟨m.id, cn.toNat?.getD 0, s, t, m.pdf_path,
                  download_url href⟩ := by simpa using h'
              exact Or.inr ⟨s, t, href, m, List.mem_cons_self _ _, hnavT, hh,
                houtc.symm, hbeq⟩
          · exact Or.inr ⟨s', t', href', m', List.mem_cons_of_mem _ hmem, h2, h3, h4, h5⟩
        all_goals {
          rcases ih _ _ fs' out hrun b hb with h | ⟨s', t', href', m', hmem, h2, h3, h4, h5⟩
          · exact Or.inl h
          · exact Or.inr ⟨s', t', href', m', List.mem_cons_of_mem _ hmem, h2, h3, h4, h5⟩ }

theorem dictSet_mem (m : List (String × String)) (k v : String) :
    ∀ kv ∈ dictSet m k v, kv ∈ m ∨ kv = (k, v) := by
  induction m with
  | nil =>
    intro kv hkv
    simp only [dictSet] at hkv
    right
    simpa using hkv
  | cons e rest ih =>
    intro kv hkv
    obtain ⟨k', v'⟩ := e
    by_cases hk : k' = k
    · simp only [dictSet, if_pos hk] at hkv
      rcases List.mem_cons.mp hkv with rfl | h
      · right; rfl
      · left; exact List.mem_cons_of_mem _ h
    · simp only [dictSet, if_neg hk] at hkv
      rcases List.mem_cons.mp hkv with rfl | h
      · left; exact List.mem_cons_self _ _
      · rcases ih kv h with h' | h'
        · left; exact List.mem_cons_of_mem _ h'
        · right; exact h'

theorem runEntries_hashes_sound (dz : Bytes → Option (List ZipEntry))
    (cn : String) (env : RunEnv) :
    ∀ (entries : List (String × String)) (books : List BookEntry)
      (hashes : List (String × String)) (fs : FS)
      (out : List BookEntry × List (String × String) × FS),
      runEntries dz cn env entries (books, hashes, fs) = .ok out →
      ∀ kv ∈ out.2.1, kv ∈ hashes ∨ ∃ s t m, (s, t) ∈ entries ∧
        dlOutcome dz (env.fetch s t) cn s t = .ok m ∧ kv = (m.id, m.sha256) := by
  intro entries
  induction entries with
  | nil =>
    intro books hashes fs out hrun kv hkv
    left
    simp only [runEntries] at hrun
    cases hrun
    exact hkv
  | cons st rest ih =>
    intro books hashes fs out hrun kv hkv
    obtain ⟨s, t⟩ := st
    by_cases hnav : (env.nav s t).navOk = false
    · simp only [runEntries, if_pos hnav] at hrun
      cases hrun
    · simp only [runEntries, if_neg hnav] at hrun
      rcases hh : (env.nav s t).href with _ | href <;> rw [hh] at hrun
      · rcases ih books hashes fs out hrun kv hkv with h | ⟨s', t', m', hmem, h2, h3⟩
        · exact Or.inl h
        · exact Or.inr ⟨s', t', m', List.mem_cons_of_mem _ hmem, h2, h3⟩
      · rcases hdl : download_and_extract dz (env.fetch s t) cn s t fs with ⟨res, fs'⟩
        rw [hdl] at hrun
        have houtc : (download_and_extract dz (env.fetch s t) cn s t fs).1 =
            dlOutcome dz (env.fetch s t) cn s t :=
          download_and_extract_fst dz (env.fetch s t) cn s t fs
        rw [hdl] at houtc
        rcases res with m | _ | _ | _
        · rcases ih _ _ fs' out hrun kv hkv with h | ⟨s', t', m', hmem, h2, h3⟩
          · rcases dictSet_mem hashes m.id m.sha256 kv h with h' | h'
            · exact Or.inl h'
            · exact Or.inr ⟨s, t, m, List.mem_cons_self _ _, houtc.symm, h'⟩
          · exact Or.inr ⟨s', t', m', List.mem_cons_of_mem _ hmem, h2, h3⟩
        all_goals {
          rcases ih _ _ fs' out hrun kv hkv with h | ⟨s', t', m', hmem, h2, h3⟩
          · exact Or.inl h
          · exact Or.inr ⟨s', t', m', List.mem_cons_of_mem _ hmem, h2, h3⟩ }

theorem dictGet_dictSet_self (m : List (String × String)) (k v : String) :
    dictGet (dictSet m k v) k = some v := by
  induction m with
  | nil =>
    simp only [dictSet, dictGet]
    rw [List.find?_cons_of_pos _ (by simp)]
    rfl
  | cons e rest ih =>
    obtain ⟨k', v'⟩ := e
    by_cases hk : k' = k
    · simp only [dictSet, if_pos hk, dictGet]
      rw [List.find?_cons_of_pos _ (by simp)]
      rfl
    · simp only [dictSet, if_neg hk, dictGet]
      rw [List.find?_cons_of_neg _ (by simp [hk])]
      exact ih

/-! ## Claims -/

/-- C3: for every input string `x` the sanitizer is idempotent —
`sanitize_filename (sanitize_filename x) = sanitize_filename x` — and its
output contains only characters from the set `[a-z0-9_.-]`. -/
theorem C3_sanitizer_idempotent_and_safe (x : String) :
    sanitize_filename (sanitize_filename x) = sanitize_filename x ∧
    ∀ c ∈ (sanitize_filename x).data, allowedLower c :=
  ⟨sanitize_filename_idem x, sanitize_filename_allowed x⟩

/-- Witness for C3 at the concrete input "Maths, Part I". -/
theorem C3_sanitizer_witness :
    sanitize_filename (sanitize_filename "Maths, Part I") =
      sanitize_filename "Maths, Part I" ∧ allowedLower 'm' :=
  ⟨(C3_sanitizer_idempotent_and_safe "Maths, Part I").1,
   (C3_sanitizer_idempotent_and_safe "Maths, Part I").2 'm' (by decide)⟩

/-- C4: `book_id` is a pure, deterministic function of
(class, subject, title) — equal inputs give equal ids — and has the shape
`"c" ++ class ++ "_" ++ sanitized subject ++ "_" ++ sanitized title`;
in particular class "X", subject "S", title "T" give "cX_s_t". -/
theorem C4_book_id_pure_deterministic_shape :
    (∀ c1 s1 t1 c2 s2 t2 : String, c1 = c2 → s1 = s2 → t1 = t2 →
      book_id c1 s1 t1 = book_id c2 s2 t2) ∧
    (∀ c s t : String, book_id c s t =
      "c" ++ c ++ "_" ++ sanitize_filename s ++ "_" ++ sanitize_filename t) ∧
    book_id "X" "S" "T" = "cX_s_t" := by
  refine ⟨?_, fun c s t => rfl, by decide⟩
  rintro c1 s1 t1 c2 s2 t2 rfl rfl rfl
  rfl

/-- Witness for C4 at concrete inputs. -/
theorem C4_book_id_witness :
    book_id "2" "Science" "Physics Vol. 1" = book_id "2" "Science" "Physics Vol. 1" ∧
    book_id "X" "S" "T" = "cX_s_t" :=
  ⟨C4_book_id_pure_deterministic_shape.1 "2" "Science" "Physics Vol. 1"
      "2" "Science" "Physics Vol. 1" rfl rfl rfl,
   C4_book_id_pure_deterministic_shape.2.2⟩

/-- C8 counterexample: an already-absolute anchor href is NOT used as-is —
the site prefix is prepended unconditionally (line 118), producing a
malformed doubled URL, which falsifies the claim's "already-absolute
references are used as-is". -/
theorem C8_absolute_href_counterexample :
    download_url "https://ncert.nic.in/textbook/pdf/a.zip" ≠
      "https://ncert.nic.in/textbook/pdf/a.zip" := by
  decide

/-- C8 amended: the retrieval URL is always the literal site prefix
concatenated with the anchor's href, whatever the href's shape.  This
normalizes site-root-relative references (without a leading slash) against
the site's base origin, but an already-absolute href is prefixed too rather
than used as-is. -/
theorem C8_download_url_always_concatenates (href : String) :
    download_url href = "https://ncert.nic.in/" ++ href := rfl

/-- C2 counterexample: with duplicate member names the pipeline does NOT
select the matching entry of largest uncompressed size.  `namelist()` lists
both same-named members, but `getinfo`/`open` resolve the name to the LAST
one (CPython builds `NameToInfo` last-wins), so for the archive
[("a.pdf", 500), ("a.pdf", 10)] the `max` at line 173 keys every occurrence
of "a.pdf" at size 10 and the extracted member is the 10-byte one, although
a 500-byte matching member exists — and listing the same members in the
other order extracts the 500-byte one, so the selection is also
order-dependent. -/
theorem C2_duplicate_name_counterexample :
    selectedEntry [⟨"a.pdf", 500, some [1]⟩, ⟨"a.pdf", 10, some [2]⟩] =
      some ⟨"a.pdf", 10, some [2]⟩ ∧
    ⟨"a.pdf", 500, some [1]⟩ ∈
      ([⟨"a.pdf", 500, some [1]⟩, ⟨"a.pdf", 10, some [2]⟩] : List ZipEntry) ∧
    isPdfName "a.pdf" = true ∧ (10 : Nat) < 500 ∧
    selectedEntry [⟨"a.pdf", 10, some [2]⟩, ⟨"a.pdf", 500, some [1]⟩] =
      some ⟨"a.pdf", 500, some [1]⟩ := by
  decide

/-- C2 (amended): over any archive whose member names are DISTINCT, the
member the pipeline extracts is exactly the spec's primary content file:
among entries whose name ends in ".pdf" case-insensitively, the one of
largest uncompressed size, ties broken by first position in archive order;
and whenever 500 is the largest matching size present, the selected entry
has size 500 — so for candidate sizes {10, 500, 200} the 500-byte file is
selected regardless of listing order.  The distinct-names restriction is
forced by the counterexample: `zipfile` resolves members by name, last
occurrence winning, so a duplicate-named archive can extract a smaller
member. -/
theorem C2_primary_selection (ar : List ZipEntry) (hn : (namelist ar).Nodup) :
    selectedEntry ar = specPrimary ar ∧
    ((∃ e ∈ matchingEntries ar, e.file_size = 500) →
     (∀ e ∈ matchingEntries ar, e.file_size ≤ 500) →
     ∃ e, selectedEntry ar = some e ∧ e.file_size = 500) := by
  refine ⟨selectedEntry_eq_specPrimary ar hn, fun hex hub => ?_⟩
  have hmax : maxKey ZipEntry.file_size (matchingEntries ar) = 500 := by
    obtain ⟨e, he, h500⟩ := hex
    have h1 := le_maxKey ZipEntry.file_size (matchingEntries ar) e he
    have h2 := maxKey_le ZipEntry.file_size (matchingEntries ar) 500
      (fun x hx => hub x hx)
    omega
  rw [selectedEntry_eq_specPrimary ar hn, specPrimary, hmax]
  obtain ⟨e, he, h500⟩ := hex
  rcases hfind : (matchingEntries ar).find? (fun e => e.file_size == 500) with _ | e'
  · exfalso
    have := List.find?_eq_none.mp hfind e he
    simp [h500] at this
  · exact ⟨e', hfind, by simpa using List.find?_some hfind⟩

/-- Witness for C2: a concrete archive with sizes {10, 500, 200} listed in
that order (and a second check comes from `specPrimary` being order-robust
by the theorem itself). -/
theorem C2_primary_selection_witness :
    selectedEntry [⟨"a.pdf", 10, some [1]⟩, ⟨"b.pdf", 500, some [2]⟩,
        ⟨"c.pdf", 200, some [3]⟩] =
      specPrimary [⟨"a.pdf", 10, some [1]⟩, ⟨"b.pdf", 500, some [2]⟩,
        ⟨"c.pdf", 200, some [3]⟩] ∧
    ∃ e, selectedEntry [⟨"a.pdf", 10, some [1]⟩, ⟨"b.pdf", 500, some [2]⟩,
        ⟨"c.pdf", 200, some [3]⟩] = some e ∧ e.file_size = 500 :=
  ⟨(C2_primary_selection _ (by decide)).1,
   (C2_primary_selection _ (by decide)).2 (by decide) (by decide)⟩

/-- C6: a failing fetch (HTTP status error, or a connection dropping partway
through streaming) ends the entry with the fetch-error outcome, leaves no
temporary archive file on disk, and leaves any previously existing output
file at the destination unchanged; more generally the temporary location is
removed on every exit path of processing (success, failure, or early
return). -/
theorem C6_fetch_failure_cleanup (dz : Bytes → Option (List ZipEntry))
    (c s t : String) (fs : FS) :
    (∀ fetch, ((download_and_extract dz fetch c s t fs).2).get (zip_path c) = none) ∧
    ((download_and_extract dz .httpError c s t fs).1 = .fetchError ∧
     ((download_and_extract dz .httpError c s t fs).2).get (pdf_path c s t) =
       fs.get (pdf_path c s t)) ∧
    (∀ got, (download_and_extract dz (.streamFail got) c s t fs).1 = .fetchError ∧
     ((download_and_extract dz (.streamFail got) c s t fs).2).get (pdf_path c s t) =
       fs.get (pdf_path c s t)) := by
  refine ⟨fun fetch => download_and_extract_zip_removed dz fetch c s t fs,
    ⟨rfl, ?_⟩, fun got => ⟨rfl, ?_⟩⟩
  · show ((fs.remove (zip_path c))).get (pdf_path c s t) = fs.get (pdf_path c s t)
    rw [FS.get_remove_ne _ _ _ (pdf_path_ne_zip_path c s t)]
  · show (((fs.set (zip_path c) got).remove (zip_path c))).get (pdf_path c s t) =
      fs.get (pdf_path c s t)
    rw [FS.get_remove_ne _ _ _ (pdf_path_ne_zip_path c s t),
      FS.get_set_ne _ _ _ _ (pdf_path_ne_zip_path c s t)]

/-- C7: a fetched archive that opens but contains zero recognized content
entries yields the no-content exit, no output file is created or overwritten
at the destination, no temp file remains, and the entry is skipped rather
than fatal: a one-entry loop still returns successfully with the
accumulators unchanged. -/
theorem C7_no_content (dz : Bytes → Option (List ZipEntry)) (bytes : Bytes)
    (ar : List ZipEntry) (c s t : String) (fs : FS)
    (hz : dz bytes = some ar) (hp : pdf_files ar = []) :
    (download_and_extract dz (.ok bytes) c s t fs).1 = .noPdf ∧
    ((download_and_extract dz (.ok bytes) c s t fs).2).get (pdf_path c s t) =
      fs.get (pdf_path c s t) ∧
    ((download_and_extract dz (.ok bytes) c s t fs).2).get (zip_path c) = none ∧
    (∀ (env : RunEnv) (books : List BookEntry)
        (hashes : List (String × String)) (href : String),
      env.nav s t = ⟨true, some href⟩ → env.fetch s t = .ok bytes →
      ∃ fs', runEntries dz c env [(s, t)] (books, hashes, fs) =
        .ok (books, hashes, fs')) := by
  have hdl := download_and_extract_noPdf dz bytes ar c s t fs hz hp
  refine ⟨by rw [hdl], ?_, by rw [hdl]; exact FS.get_remove_self _ _,
    fun env books hashes href hnav hfetch => ?_⟩
  · rw [hdl]
    show (((fs.set (zip_path c) bytes).remove (zip_path c))).get (pdf_path c s t) =
      fs.get (pdf_path c s t)
    rw [FS.get_remove_ne _ _ _ (pdf_path_ne_zip_path c s t),
      FS.get_set_ne _ _ _ _ (pdf_path_ne_zip_path c s t)]
  · refine ⟨(fs.set (zip_path c) bytes).remove (zip_path c), ?_⟩
    simp only [runEntries, hnav]
    rw [if_neg (by simp)]
    rw [hfetch, hdl]

/-- C5 counterexample: at this concrete input the destination already holds
bytes [1, 2, 3], the fetched archive decodes, and reading the selected
member's bytes fails (a CRC error raised by `read()`); because
`open(pdf_path, 'wb')` truncates the destination before `source.read()`
runs, processing ends in the caught archive-error path with an EMPTY file
left at the destination — a partial file, falsifying "if extraction fails
before that point, no partial file is left at the destination path". -/
theorem C5_truncation_counterexample :
    ((download_and_extract (fun _ => some [⟨"b.pdf", 3, none⟩]) (.ok [7])
        "1" "S" "T" [(pdf_path "1" "S" "T", [1, 2, 3])]).2).get
        (pdf_path "1" "S" "T") = some [] ∧
    (download_and_extract (fun _ => some [⟨"b.pdf", 3, none⟩]) (.ok [7])
        "1" "S" "T" [(pdf_path "1" "S" "T", [1, 2, 3])]).1 = DlResult.badZip ∧
    FS.get [(pdf_path "1" "S" "T", [1, 2, 3])] (pdf_path "1" "S" "T") =
      some [1, 2, 3] := by
  decide

/-- C5 amended: the destination receives the content bytes in a single write
only after they are fully held in memory, but the destination is truncated
as soon as extraction of the selected member begins: if reading its bytes
fails, a truncated (empty) file is left at the destination path; if the read
succeeds, the full bytes end up there. -/
theorem C5_destination_write (dz : Bytes → Option (List ZipEntry))
    (bytes : Bytes) (ar : List ZipEntry) (nm : String) (entry : ZipEntry)
    (c s t : String) (fs : FS) (hz : dz bytes = some ar)
    (hm : main_pdf_name ar = some nm) (hg : getinfo ar nm = some entry) :
    (entry.content = none →
      (download_and_extract dz (.ok bytes) c s t fs).1 = .badZip ∧
      ((download_and_extract dz (.ok bytes) c s t fs).2).get (pdf_path c s t) =
        some []) ∧
    (∀ pc, entry.content = some pc →
      (download_and_extract dz (.ok bytes) c s t fs).1 =
        .ok ⟨book_id c s t, pdf_path c s t, sha256_hexdigest pc⟩ ∧
      ((download_and_extract dz (.ok bytes) c s t fs).2).get (pdf_path c s t) =
        some pc) := by
  constructor
  · intro hc
    have hdl := download_and_extract_readFail dz bytes ar nm entry c s t fs hz hm hg hc
    rw [hdl]
    refine ⟨rfl, ?_⟩
    show ((((fs.set (zip_path c) bytes).set (pdf_path c s t) [])).remove
      (zip_path c)).get (pdf_path c s t) = some []
    rw [FS.get_remove_ne _ _ _ (pdf_path_ne_zip_path c s t), FS.get_set_self]
  · intro pc hc
    have hdl := download_and_extract_success dz bytes ar nm entry pc c s t fs hz hm hg hc
    rw [hdl]
    refine ⟨rfl, ?_⟩
    show (((((fs.set (zip_path c) bytes).set (pdf_path c s t) [])).set
      (pdf_path c s t) pc).remove (zip_path c)).get (pdf_path c s t) = some pc
    rw [FS.get_remove_ne _ _ _ (pdf_path_ne_zip_path c s t), FS.get_set_self]

/-- C1 counterexample: a per-entry error during processing CAN abort the
whole run.  Discovery succeeds with the single entry ("S", "T"), but the
re-navigation for that entry fails (`navOk = false`, modelling a
`WebDriverWait` timeout at lines 94-106 while resolving the entry's detail
view).  No `except` in `main` catches it, so the loop aborts: the run ends
`entryFatal` and no manifest is written — falsifying "no per-entry error
ever aborts the overall run". -/
theorem C1_per_entry_abort_counterexample :
    runMain (fun _ => none) "1"
      ⟨some [("S", "T")], fun _ _ => ⟨false, none⟩, fun _ _ => .httpError,
        true, true⟩ [] = (.entryFatal "S" "T", []) ∧
    FS.get ((runMain (fun _ => none) "1"
      ⟨some [("S", "T")], fun _ _ => ⟨false, none⟩, fun _ _ => .httpError,
        true, true⟩ []).2) books_manifest_path = none := by
  exact ⟨rfl, rfl⟩

/-- C1 amended: every per-entry failure the code catches — missing download
anchor, fetch error, unreadable archive, missing/corrupt content entry —
causes only that entry's omission from the manifest and never aborts the
run: whenever each entry's re-navigation succeeds and the final flush
succeeds, the run completes whatever the anchors, fetches and archives do,
and every manifest record stems from an entry whose processing returned
metadata.  (A failure inside the per-entry re-navigation itself, by
contrast, aborts the run uncaught, as the counterexample shows; discovery
failure and flush failure remain run-fatal.) -/
theorem C1_caught_errors_skip_entry (dz : Bytes → Option (List ZipEntry))
    (cn : String) (env : RunEnv) (entries : List (String × String)) (fs0 : FS)
    (hdisc : env.discovery = some entries)
    (hnav : ∀ st ∈ entries, (env.nav st.1 st.2).navOk = true)
    (hp1 : env.persistBooksOk = true) (hp2 : env.persistHashesOk = true) :
    ∃ books hashes fs',
      runMain dz cn env fs0 = (.completed books hashes, fs') ∧
      ∀ b ∈ books, ∃ s t href m, (s, t) ∈ entries ∧
        (env.nav s t).href = some href ∧
        dlOutcome dz (env.fetch s t) cn s t = .ok m ∧
        b = ⟨m.id, cn.toNat?.getD 0, s, t, m.pdf_path, download_url href⟩ := by
  obtain ⟨out, hout⟩ := runEntries_no_abort dz cn env entries [] [] fs0 hnav
  obtain ⟨books, hashes, fs⟩ := out
  have hw : write_manifests env.persistBooksOk env.persistHashesOk books hashes fs =
      (true, (fs.set books_manifest_path (encodeBooks books)).set
        hashes_manifest_path (encodeHashes hashes)) := by
    simp [write_manifests, hp1, hp2]
  refine ⟨books, hashes,
    (fs.set books_manifest_path (encodeBooks books)).set
      hashes_manifest_path (encodeHashes hashes), ?_, ?_⟩
  · simp only [runMain, hdisc, hout, hw]
  · intro b hb
    rcases runEntries_books_sound dz cn env entries [] [] fs0 (books, hashes, fs)
        hout b hb with h | ⟨s, t, href, m, hmem, _, h3, h4, h5⟩
    · cases h
    · exact ⟨s, t, href, m, hmem, h3, h4, h5⟩

/-- Witness for C1 (amended): a concrete one-entry run whose entry has no
download anchor completes with an empty manifest. -/
theorem C1_caught_errors_skip_entry_witness :
    ∃ books hashes fs',
      runMain (fun _ => none) "1"
        ⟨some [("S", "T")], fun _ _ => ⟨true, none⟩, fun _ _ => .httpError,
          true, true⟩ [] = (.completed books hashes, fs') ∧
      ∀ b ∈ books, ∃ s t href m, (s, t) ∈ [("S", "T")] ∧
        (((⟨some [("S", "T")], fun _ _ => ⟨true, none⟩, fun _ _ => .httpError,
          true, true⟩ : RunEnv)).nav s t).href = some href ∧
        dlOutcome (fun _ => none)
          (((⟨some [("S", "T")], fun _ _ => ⟨true, none⟩, fun _ _ => .httpError,
            true, true⟩ : RunEnv)).fetch s t) "1" s t = .ok m ∧
        b = ⟨m.id, ("1" : String).toNat?.getD 0, s, t, m.pdf_path,
          download_url href⟩ :=
  C1_caught_errors_skip_entry (fun _ => none) "1"
    ⟨some [("S", "T")], fun _ _ => ⟨true, none⟩, fun _ _ => .httpError,
      true, true⟩ [("S", "T")] [] rfl (by intro st _; rfl) rfl rfl

/-- `write_manifests` returns `true` only when both writes completed, in
which case the final filesystem holds both serializations. -/
theorem write_manifests_true (p1 p2 : Bool) (books : List BookEntry)
    (hashes : List (String × String)) (fs fs' : FS)
    (h : write_manifests p1 p2 books hashes fs = (true, fs')) :
    fs' = (fs.set books_manifest_path (encodeBooks books)).set
      hashes_manifest_path (encodeHashes hashes) := by
  cases p1 with
  | false => simp [write_manifests] at h
  | true =>
    cases p2 with
    | false => simp [write_manifests] at h
    | true =>
      simp [write_manifests] at h
      exact h.symm

/-- Exhaustive case analysis of `runMain`'s control flow. -/
theorem runMain_cases (dz : Bytes → Option (List ZipEntry)) (cn : String)
    (env : RunEnv) (fs0 : FS) :
    (env.discovery = none ∧ runMain dz cn env fs0 = (.discoveryFatal, fs0)) ∨
    (∃ entries s t fsE, env.discovery = some entries ∧
      runEntries dz cn env entries ([], [], fs0) = .error ((s, t), fsE) ∧
      runMain dz cn env fs0 = (.entryFatal s t, fsE)) ∨
    (∃ entries books hashes fsP fsW, env.discovery = some entries ∧
      runEntries dz cn env entries ([], [], fs0) = .ok (books, hashes, fsP) ∧
      ((write_manifests env.persistBooksOk env.persistHashesOk books hashes fsP =
          (false, fsW) ∧
        runMain dz cn env fs0 = (.persistFatal, fsW)) ∨
       (write_manifests env.persistBooksOk env.persistHashesOk books hashes fsP =
          (true, fsW) ∧
        runMain dz cn env fs0 = (.completed books hashes, fsW)))) := by
  rcases hd : env.discovery with _ | entries
  · exact Or.inl ⟨rfl, by simp only [runMain, hd]⟩
  · rcases hr : runEntries dz cn env entries ([], [], fs0) with ⟨⟨s, t⟩, fsE⟩ | ⟨books, hashes, fsP⟩
    · exact Or.inr (Or.inl ⟨entries, s, t, fsE, rfl, hr,
        by simp only [runMain, hd, hr]⟩)
    · rcases hw : write_manifests env.persistBooksOk env.persistHashesOk books
          hashes fsP with ⟨b, fsW⟩
      cases b
      · exact Or.inr (Or.inr ⟨entries, books, hashes, fsP, fsW, rfl, hr,
          Or.inl ⟨hw, by simp only [runMain, hd, hr, hw]⟩⟩)
      · exact Or.inr (Or.inr ⟨entries, books, hashes, fsP, fsW, rfl, hr,
          Or.inr ⟨hw, by simp only [runMain, hd, hr, hw]⟩⟩)

/-- C9: in every run the manifest is flushed at most once, only after all
entries are processed, and holds success entries only.  (a) While entries
are being processed the manifest files are never touched: after any prefix
of the entries, the intermediate filesystem agrees with the initial one on
both manifest paths.  (b) A run aborted before completion — discovery
failure, or a per-entry abort — leaves both manifest paths exactly as they
were: no manifest (not even a partial one) is written.  (c) A completed
run's two manifest files hold precisely the serializations of the final
accumulators, every record of which stems from an entry whose processing
returned metadata. -/
theorem C9_manifest_flushed_once (dz : Bytes → Option (List ZipEntry))
    (cn : String) (env : RunEnv) (fs0 : FS) :
    (∀ (entries : List (String × String)) (k : Nat),
      FS.get (exceptFS (runEntries dz cn env (entries.take k) ([], [], fs0)))
          books_manifest_path = fs0.get books_manifest_path ∧
      FS.get (exceptFS (runEntries dz cn env (entries.take k) ([], [], fs0)))
          hashes_manifest_path = fs0.get hashes_manifest_path) ∧
    (∀ fs', runMain dz cn env fs0 = (.discoveryFatal, fs') →
      fs'.get books_manifest_path = fs0.get books_manifest_path ∧
      fs'.get hashes_manifest_path = fs0.get hashes_manifest_path) ∧
    (∀ s t fs', runMain dz cn env fs0 = (.entryFatal s t, fs') →
      fs'.get books_manifest_path = fs0.get books_manifest_path ∧
      fs'.get hashes_manifest_path = fs0.get hashes_manifest_path) ∧
    (∀ books hashes fs',
      runMain dz cn env fs0 = (.completed books hashes, fs') →
      fs'.get books_manifest_path = some (encodeBooks books) ∧
      fs'.get hashes_manifest_path = some (encodeHashes hashes) ∧
      ∀ entries, env.discovery = some entries →
        (∀ b ∈ books, ∃ s t href m, (s, t) ∈ entries ∧
          (env.nav s t).navOk = true ∧ (env.nav s t).href = some href ∧
          dlOutcome dz (env.fetch s t) cn s t = .ok m ∧
          b = ⟨m.id, cn.toNat?.getD 0, s, t, m.pdf_path, download_url href⟩) ∧
        (∀ kv ∈ hashes, ∃ s t m, (s, t) ∈ entries ∧
          dlOutcome dz (env.fetch s t) cn s t = .ok m ∧
          kv = (m.id, m.sha256))) := by
  have hpresB := fun entries => runEntries_preserves dz cn env books_manifest_path
    (fun s t => books_manifest_ne_pdf_path cn s t) (books_manifest_ne_zip_path cn)
    entries [] [] fs0
  have hpresH := fun entries => runEntries_preserves dz cn env hashes_manifest_path
    (fun s t => hashes_manifest_ne_pdf_path cn s t) (hashes_manifest_ne_zip_path cn)
    entries [] [] fs0
  refine ⟨fun entries k => ⟨hpresB (entries.take k), hpresH (entries.take k)⟩, ?_, ?_, ?_⟩
  · intro fs' hrun
    rcases runMain_cases dz cn env fs0 with ⟨_, hm⟩ |
      ⟨entries, s, t, fsE, _, hr, hm⟩ |
      ⟨entries, books, hashes, fsP, fsW, _, hr, ⟨_, hm⟩ | ⟨_, hm⟩⟩
    · have h2 := hm.symm.trans hrun
      have hfs : fs0 = fs' := congrArg Prod.snd h2
      subst hfs
      exact ⟨rfl, rfl⟩
    · have h2 := hm.symm.trans hrun
      exact absurd (congrArg Prod.fst h2) (by simp)
    · have h2 := hm.symm.trans hrun
      exact absurd (congrArg Prod.fst h2) (by simp)
    · have h2 := hm.symm.trans hrun
      exact absurd (congrArg Prod.fst h2) (by simp)
  · intro s t fs' hrun
    rcases runMain_cases dz cn env fs0 with ⟨_, hm⟩ |
      ⟨entries, s', t', fsE, _, hr, hm⟩ |
      ⟨entries, books, hashes, fsP, fsW, _, hr, ⟨_, hm⟩ | ⟨_, hm⟩⟩
    · have h2 := hm.symm.trans hrun
      exact absurd (congrArg Prod.fst h2) (by simp)
    · have h2 := hm.symm.trans hrun
      have hfs : fsE = fs' := congrArg Prod.snd h2
      subst hfs
      have h1 := hpresB entries
      have h3 := hpresH entries
      rw [hr] at h1 h3
      exact ⟨h1, h3⟩
    · have h2 := hm.symm.trans hrun
      exact absurd (congrArg Prod.fst h2) (by simp)
    · have h2 := hm.symm.trans hrun
      exact absurd (congrArg Prod.fst h2) (by simp)
  · intro books hashes fs' hrun
    rcases runMain_cases dz cn env fs0 with ⟨_, hm⟩ |
      ⟨entries, s', t', fsE, _, hr, hm⟩ |
      ⟨entries, books', hashes', fsP, fsW, hd, hr, ⟨_, hm⟩ | ⟨hw, hm⟩⟩
    · have h2 := hm.symm.trans hrun
      exact absurd (congrArg Prod.fst h2) (by simp)
    · have h2 := hm.symm.trans hrun
      exact absurd (congrArg Prod.fst h2) (by simp)
    · have h2 := hm.symm.trans hrun
      exact absurd (congrArg Prod.fst h2) (by simp)
    · have h2 := hm.symm.trans hrun
      have h1 := congrArg Prod.fst h2
      simp only [RunResult.completed.injEq] at h1
      obtain ⟨hb, hh⟩ := h1
      subst hb
      subst hh
      have hfs : fsW = fs' := congrArg Prod.snd h2
      subst hfs
      have hW := write_manifests_true env.persistBooksOk env.persistHashesOk
        books' hashes' fsP fsW hw
      subst hW
      refine ⟨?_, ?_, ?_⟩
      · rw [FS.get_set_ne _ _ _ _ (by decide), FS.get_set_self]
      · rw [FS.get_set_self]
      · intro entries' hd'
        rw [hd] at hd'
        injection hd' with he
        subst he
        constructor
        · intro bk hbk
          rcases runEntries_books_sound dz cn env entries [] [] fs0
              (books', hashes', fsP) hr bk hbk with h | ⟨s, t, href, m, h1, h2', h3, h4, h5⟩
          · cases h
          · exact ⟨s, t, href, m, h1, h2', h3, h4, h5⟩
        · intro kv hkv
          rcases runEntries_hashes_sound dz cn env entries [] [] fs0
              (books', hashes', fsP) hr kv hkv with h | ⟨s, t, m, h1, h2', h3⟩
          · cases h
          · exact ⟨s, t, m, h1, h2', h3⟩

/-- Witness for C9 at concrete runs: a discovery-fatal run leaves the
manifest paths untouched, and a completed (empty) run writes both
manifests. -/
theorem C9_manifest_flushed_once_witness :
    (FS.get ([] : FS) books_manifest_path = FS.get ([] : FS) books_manifest_path ∧
     FS.get ([] : FS) hashes_manifest_path = FS.get ([] : FS) hashes_manifest_path) ∧
    (FS.get (FS.set (FS.set [] books_manifest_path (encodeBooks []))
        hashes_manifest_path (encodeHashes [])) books_manifest_path =
      some (encodeBooks []) ∧
     FS.get (FS.set (FS.set [] books_manifest_path (encodeBooks []))
        hashes_manifest_path (encodeHashes [])) hashes_manifest_path =
      some (encodeHashes [])) := by
  refine ⟨(C9_manifest_flushed_once (fun _ => none) "1"
    ⟨none, fun _ _ => ⟨true, none⟩, fun _ _ => .httpError, true, true⟩ []).2.1
    [] rfl, ?_⟩
  have h := (C9_manifest_flushed_once (fun _ => none) "1"
    ⟨some [("S", "T")], fun _ _ => ⟨true, none⟩, fun _ _ => .httpError, true,
      true⟩ []).2.2.2 [] []
    (FS.set (FS.set [] books_manifest_path (encodeBooks []))
      hashes_manifest_path (encodeHashes [])) rfl
  exact ⟨h.1, h.2.1⟩

/-- The decode environment of the C10 collision run: every fetched archive
decodes to a single content member holding exactly the fetched bytes. -/
def collisionDz : Bytes → Option (List ZipEntry) :=
  fun b => some [⟨"book.pdf", b.length, some b⟩]

/-- The run environment of the C10 collision run: discovery yields the two
given entries, navigation always succeeds with anchor href "x.zip", the
first entry's fetch returns `c1`, any other entry's fetch returns `c2`. -/
def collisionEnv (s1 t1 s2 t2 : String) (c1 c2 : Bytes) : RunEnv :=
  ⟨some [(s1, t1), (s2, t2)], fun _ _ => ⟨true, some "x.zip"⟩,
   fun s t => if (s, t) = (s1, t1) then .ok c1 else .ok c2, true, true⟩

/-- C10: `book_id` and the output path are not injective over distinct
logical entries.  If two different (subject, title) pairs in the same class
sanitize to the same strings, they share the same `book_id` and output path;
in a run that processes both (each retrieving a one-member archive), the
later entry's content overwrites the earlier one's output file and replaces
its value in the identifier-to-hash index, while both entries still appear
in the catalog-entry list. -/
theorem C10_collision_overwrite (cn s1 t1 s2 t2 : String) (c1 c2 : Bytes)
    (hne : (s1, t1) ≠ (s2, t2))
    (hs : sanitize_filename s1 = sanitize_filename s2)
    (ht : sanitize_filename t1 = sanitize_filename t2) :
    book_id cn s1 t1 = book_id cn s2 t2 ∧
    pdf_path cn s1 t1 = pdf_path cn s2 t2 ∧
    ∃ fs', runMain collisionDz cn (collisionEnv s1 t1 s2 t2 c1 c2) [] =
        (.completed
          [⟨book_id cn s1 t1, cn.toNat?.getD 0, s1, t1, pdf_path cn s1 t1,
             download_url "x.zip"⟩,
           ⟨book_id cn s1 t1, cn.toNat?.getD 0, s2, t2, pdf_path cn s1 t1,
             download_url "x.zip"⟩]
          [(book_id cn s1 t1, sha256_hexdigest c2)], fs') ∧
      fs'.get (pdf_path cn s1 t1) = some c2 ∧
      dictGet [(book_id cn s1 t1, sha256_hexdigest c2)] (book_id cn s1 t1) =
        some (sha256_hexdigest c2) := by
  have hbid : book_id cn s1 t1 = book_id cn s2 t2 := by
    rw [book_id, book_id, hs, ht]
  have hpp : pdf_path cn s1 t1 = pdf_path cn s2 t2 := by
    rw [pdf_path, pdf_path, pdf_filename, pdf_filename, hs, ht]
  have hnav : ∀ s t, (collisionEnv s1 t1 s2 t2 c1 c2).nav s t =
      ⟨true, some "x.zip"⟩ := fun _ _ => rfl
  have hf1 : (collisionEnv s1 t1 s2 t2 c1 c2).fetch s1 t1 = .ok c1 := by
    show (if (s1, t1) = (s1, t1) then FetchResult.ok c1 else .ok c2) = .ok c1
    rw [if_pos rfl]
  have hf2 : (collisionEnv s1 t1 s2 t2 c1 c2).fetch s2 t2 = .ok c2 := by
    show (if (s2, t2) = (s1, t1) then FetchResult.ok c1 else .ok c2) = .ok c2
    rw [if_neg (Ne.symm hne)]
  have h1 := download_and_extract_success collisionDz c1
    [⟨"book.pdf", c1.length, some c1⟩] "book.pdf"
    ⟨"book.pdf", c1.length, some c1⟩ c1 cn s1 t1 [] rfl rfl rfl rfl
  have h2 := download_and_extract_success collisionDz c2
    [⟨"book.pdf", c2.length, some c2⟩] "book.pdf"
    ⟨"book.pdf", c2.length, some c2⟩ c2 cn s2 t2
    ((((FS.set [] (zip_path cn) c1).set (pdf_path cn s1 t1) []).set
      (pdf_path cn s1 t1) c1).remove (zip_path cn)) rfl rfl rfl rfl
  rw [← hbid, ← hpp] at h2
  refine ⟨hbid, hpp,
    FS.set (FS.set ((((((((FS.set [] (zip_path cn) c1).set (pdf_path cn s1 t1)
        []).set (pdf_path cn s1 t1) c1).remove (zip_path cn)).set (zip_path cn)
        c2).set (pdf_path cn s1 t1) []).set (pdf_path cn s1 t1) c2).remove
        (zip_path cn))
      books_manifest_path (encodeBooks
        [⟨book_id cn s1 t1, cn.toNat?.getD 0, s1, t1, pdf_path cn s1 t1,
           download_url "x.zip"⟩,
         ⟨book_id cn s1 t1, cn.toNat?.getD 0, s2, t2, pdf_path cn s1 t1,
           download_url "x.zip"⟩]))
      hashes_manifest_path (encodeHashes
        [(book_id cn s1 t1, sha256_hexdigest c2)]), ?_, ?_, ?_⟩
  · have hrun : runEntries collisionDz cn (collisionEnv s1 t1 s2 t2 c1 c2)
        [(s1, t1), (s2, t2)] ([], [], []) =
        .ok ([⟨book_id cn s1 t1, cn.toNat?.getD 0, s1, t1, pdf_path cn s1 t1,
             download_url "x.zip"⟩,
           ⟨book_id cn s1 t1, cn.toNat?.getD 0, s2, t2, pdf_path cn s1 t1,
             download_url "x.zip"⟩],
          [(book_id cn s1 t1, sha256_hexdigest c2)],
          (((((((FS.set [] (zip_path cn) c1).set (pdf_path cn s1 t1) []).set
            (pdf_path cn s1 t1) c1).remove (zip_path cn)).set (zip_path cn)
            c2).set (pdf_path cn s1 t1) []).set (pdf_path cn s1 t1) c2).remove
            (zip_path cn)) := by
      simp only [runEntries, hnav]
      rw [if_neg (by simp)]
      rw [hf1, h1]
      simp only []
      rw [if_neg (by simp)]
      rw [hf2, h2]
      simp only [List.cons_append, List.nil_append, dictSet]
      simp only [if_true]
    simp only [runMain,
      show (collisionEnv s1 t1 s2 t2 c1 c2).discovery =
        some [(s1, t1), (s2, t2)] from rfl, hrun, write_manifests,
      show (collisionEnv s1 t1 s2 t2 c1 c2).persistBooksOk = true from rfl,
      show (collisionEnv s1 t1 s2 t2 c1 c2).persistHashesOk = true from rfl,
      Bool.true_eq_false, if_false]
  · show FS.get (FS.set (FS.set _ books_manifest_path _) hashes_manifest_path _)
      (pdf_path cn s1 t1) = some c2
    rw [FS.get_set_ne _ _ _ _ (Ne.symm (hashes_manifest_ne_pdf_path cn s1 t1)),
      FS.get_set_ne _ _ _ _ (Ne.symm (books_manifest_ne_pdf_path cn s1 t1)),
      FS.get_remove_ne _ _ _ (pdf_path_ne_zip_path cn s1 t1), FS.get_set_self]
  · rw [dictGet, List.find?_cons_of_pos _ (by simp)]
    rfl

/-- Witness for C5 (amended) at concrete inputs: a failing read leaves an
empty file at the destination; a successful read leaves the full bytes. -/
theorem C5_destination_write_witness :
    ((download_and_extract (fun _ => some [⟨"b.pdf", 3, none⟩]) (.ok [7])
        "2" "Sub" "Tit" []).2).get (pdf_path "2" "Sub" "Tit") = some [] ∧
    ((download_and_extract (fun _ => some [⟨"b.pdf", 3, some [9, 9]⟩]) (.ok [7])
        "2" "Sub" "Tit" []).2).get (pdf_path "2" "Sub" "Tit") = some [9, 9] :=
  ⟨((C5_destination_write (fun _ => some [⟨"b.pdf", 3, none⟩]) [7]
      [⟨"b.pdf", 3, none⟩] "b.pdf" ⟨"b.pdf", 3, none⟩ "2" "Sub" "Tit" []
      rfl rfl rfl).1 rfl).2,
   ((C5_destination_write (fun _ => some [⟨"b.pdf", 3, some [9, 9]⟩]) [7]
      [⟨"b.pdf", 3, some [9, 9]⟩] "b.pdf" ⟨"b.pdf", 3, some [9, 9]⟩ "2" "Sub"
      "Tit" [] rfl rfl rfl).2 [9, 9] rfl).2⟩

/-- Witness for C7 at a concrete archive holding only a non-content member. -/
theorem C7_no_content_witness :
    (download_and_extract (fun _ => some [⟨"cover.jpg", 10, some [1]⟩])
      (.ok [5]) "1" "S" "T" []).1 = DlResult.noPdf ∧
    ((download_and_extract (fun _ => some [⟨"cover.jpg", 10, some [1]⟩])
      (.ok [5]) "1" "S" "T" []).2).get (pdf_path "1" "S" "T") =
      FS.get [] (pdf_path "1" "S" "T") ∧
    ∃ fs', runEntries (fun _ => some [⟨"cover.jpg", 10, some [1]⟩]) "1"
        ⟨some [("S", "T")], fun _ _ => ⟨true, some "x.zip"⟩,
          fun _ _ => .ok [5], true, true⟩ [("S", "T")] ([], [], []) =
      .ok ([], [], fs') :=
  ⟨(C7_no_content (fun _ => some [⟨"cover.jpg", 10, some [1]⟩]) [5]
      [⟨"cover.jpg", 10, some [1]⟩] "1" "S" "T" [] rfl (by decide)).1,
   (C7_no_content (fun _ => some [⟨"cover.jpg", 10, some [1]⟩]) [5]
      [⟨"cover.jpg", 10, some [1]⟩] "1" "S" "T" [] rfl (by decide)).2.1,
   (C7_no_content (fun _ => some [⟨"cover.jpg", 10, some [1]⟩]) [5]
      [⟨"cover.jpg", 10, some [1]⟩] "1" "S" "T" [] rfl (by decide)).2.2.2
     ⟨some [("S", "T")], fun _ _ => ⟨true, some "x.zip"⟩,
       fun _ _ => .ok [5], true, true⟩ [] [] "x.zip" rfl rfl⟩

/-- Witness for C10 at concrete colliding entries ("S","T") and ("s","t"). -/
theorem C10_collision_overwrite_witness :
    book_id "1" "S" "T" = book_id "1" "s" "t" ∧
    pdf_path "1" "S" "T" = pdf_path "1" "s" "t" ∧
    ∃ fs', runMain collisionDz "1" (collisionEnv "S" "T" "s" "t" [1] [2]) [] =
        (.completed
          [⟨book_id "1" "S" "T", ("1" : String).toNat?.getD 0, "S", "T",
             pdf_path "1" "S" "T", download_url "x.zip"⟩,
           ⟨book_id "1" "S" "T", ("1" : String).toNat?.getD 0, "s", "t",
             pdf_path "1" "S" "T", download_url "x.zip"⟩]
          [(book_id "1" "S" "T", sha256_hexdigest [2])], fs') ∧
      fs'.get (pdf_path "1" "S" "T") = some [2] ∧
      dictGet [(book_id "1" "S" "T", sha256_hexdigest [2])] (book_id "1" "S" "T") =
        some (sha256_hexdigest [2]) :=
  C10_collision_overwrite "1" "S" "T" "s" "t" [1] [2] (by decide) (by decide)
    (by decide)
